import Mathlib

/-!
Verification development for the Query Scoring, Semantic Cache, and Resilient
Routing Engine of the customer-support agent.

The Python sources are shallowly embedded:
* mutable objects become Lean structures with explicit state passing;
* `datetime.utcnow()` becomes an explicit `now : Int` argument (seconds);
* Python `dict`s (which preserve insertion order, never hold duplicate
  keys, and replace values in place on re-assignment) become association
  lists `List (String × α)` with `lookupKey` / `insertKey` / `eraseKey`;
* floating point scores become `ℚ`;
* external collaborators (the sklearn TF-IDF vectorizer, the sklearn
  `cosine_similarity` function, the HTTP transports) become explicit
  function parameters or outcome oracles.
-/

/-! ### Association-list model of Python dicts -/

/-- First value bound to `key`, mirroring `d[key]` / `key in d`. -/
def lookupKey (key : String) : List (String × α) → Option α
  | [] => none
  | (k, v) :: rest => if k = key then some v else lookupKey key rest

/-- `d[key] = v`: replace in place if present (Python dicts keep the original
position of a re-assigned key), otherwise append at the end (insertion order). -/
def insertKey (key : String) (v : α) : List (String × α) → List (String × α)
  | [] => [(key, v)]
  | (k, w) :: rest =>
    if k = key then (key, v) :: rest else (k, w) :: insertKey key v rest

/-- `del d[key]`: remove the first binding of `key`. -/
def eraseKey (key : String) : List (String × α) → List (String × α)
  | [] => []
  | (k, w) :: rest => if k = key then rest else (k, w) :: eraseKey key rest

/-- The keys of an association list, in order. -/
def keysOf (l : List (String × α)) : List String := l.map Prod.fst

theorem keysOf_nil : keysOf ([] : List (String × α)) = [] := rfl

theorem keysOf_cons (k : String) (v : α) (l : List (String × α)) :
    keysOf ((k, v) :: l) = k :: keysOf l := rfl

theorem lookupKey_insertKey_self (key : String) (v : α) (l : List (String × α)) :
    lookupKey key (insertKey key v l) = some v := by
  induction l with
  | nil => simp [insertKey, lookupKey]
  | cons p rest ih =>
    obtain ⟨k, w⟩ := p
    by_cases h : k = key <;> simp [insertKey, lookupKey, h, ih]

theorem lookupKey_insertKey_ne (k key : String) (v : α) (l : List (String × α))
    (h : k ≠ key) : lookupKey k (insertKey key v l) = lookupKey k l := by
  have hks : ¬ key = k := fun hh => h hh.symm
  induction l with
  | nil => simp [insertKey, lookupKey, hks]
  | cons p rest ih =>
    obtain ⟨k', w⟩ := p
    by_cases h' : k' = key
    · subst h'
      simp [insertKey, lookupKey, hks]
    · by_cases h'' : k' = k
      · subst h''
        simp [insertKey, lookupKey, h']
      · simp [insertKey, lookupKey, h', h'', ih]

theorem lookupKey_eraseKey_ne (k key : String) (l : List (String × α))
    (h : k ≠ key) : lookupKey k (eraseKey key l) = lookupKey k l := by
  have hks : ¬ key = k := fun hh => h hh.symm
  induction l with
  | nil => simp [eraseKey]
  | cons p rest ih =>
    obtain ⟨k', w⟩ := p
    by_cases h' : k' = key
    · subst h'
      simp [eraseKey, lookupKey, hks]
    · by_cases h'' : k' = k
      · subst h''
        simp [eraseKey, lookupKey, h']
      · simp [eraseKey, lookupKey, h', h'', ih]

theorem lookupKey_append_left (key : String) (v : α) (l l' : List (String × α))
    (h : lookupKey key l = some v) : lookupKey key (l ++ l') = some v := by
  induction l with
  | nil => simp [lookupKey] at h
  | cons p rest ih =>
    obtain ⟨k, w⟩ := p
    by_cases h' : k = key <;> simp_all [lookupKey]

theorem lookupKey_mem {key : String} {v : α} {l : List (String × α)}
    (h : lookupKey key l = some v) : (key, v) ∈ l := by
  induction l with
  | nil => simp [lookupKey] at h
  | cons p rest ih =>
    obtain ⟨k, w⟩ := p
    simp only [lookupKey] at h
    by_cases hk : k = key
    · rw [if_pos hk] at h
      injection h with h'
      subst hk
      subst h'
      exact List.mem_cons_self _ _
    · rw [if_neg hk] at h
      exact List.mem_cons_of_mem _ (ih h)

theorem lookupKey_eq_none_iff (key : String) (l : List (String × α)) :
    lookupKey key l = none ↔ key ∉ keysOf l := by
  induction l with
  | nil => simp [lookupKey, keysOf]
  | cons p rest ih =>
    obtain ⟨k, w⟩ := p
    rw [keysOf_cons]
    by_cases h' : k = key
    · subst h'
      simp [lookupKey]
    · have hks : ¬ key = k := fun hh => h' hh.symm
      simp [lookupKey, h', hks, ih]

theorem lookupKey_of_mem_nodup {key : String} {v : α} {l : List (String × α)}
    (hnd : (keysOf l).Nodup) (hmem : (key, v) ∈ l) : lookupKey key l = some v := by
  induction l with
  | nil => simp at hmem
  | cons p rest ih =>
    obtain ⟨k, w⟩ := p
    rw [keysOf_cons, List.nodup_cons] at hnd
    rcases List.mem_cons.mp hmem with h | h
    · injection h with h1 h2
      subst h1
      subst h2
      simp [lookupKey]
    · have hk : ¬ k = key := by
        intro hkey
        subst hkey
        exact hnd.1 (List.mem_map_of_mem Prod.fst h)
      simp only [lookupKey, if_neg hk]
      exact ih hnd.2 h

theorem mem_keysOf_insertKey {x key : String} {v : α} {l : List (String × α)}
    (h : x ∈ keysOf (insertKey key v l)) : x = key ∨ x ∈ keysOf l := by
  induction l with
  | nil =>
    left
    simpa [insertKey, keysOf] using h
  | cons p rest ih =>
    obtain ⟨k, w⟩ := p
    by_cases h' : k = key
    · subst h'
      rw [insertKey, if_pos rfl, keysOf_cons] at h
      rw [keysOf_cons]
      rcases List.mem_cons.mp h with h | h
      · exact Or.inl h
      · exact Or.inr (List.mem_cons_of_mem _ h)
    · rw [insertKey, if_neg h', keysOf_cons] at h
      rw [keysOf_cons]
      rcases List.mem_cons.mp h with h | h
      · exact Or.inr (List.mem_cons.mpr (Or.inl h))
      · rcases ih h with h | h
        · exact Or.inl h
        · exact Or.inr (List.mem_cons_of_mem _ h)

theorem keysOf_insertKey_nodup {key : String} {v : α} {l : List (String × α)}
    (hnd : (keysOf l).Nodup) : (keysOf (insertKey key v l)).Nodup := by
  induction l with
  | nil => simp [insertKey, keysOf]
  | cons p rest ih =>
    obtain ⟨k, w⟩ := p
    rw [keysOf_cons, List.nodup_cons] at hnd
    by_cases h' : k = key
    · subst h'
      rw [insertKey, if_pos rfl, keysOf_cons, List.nodup_cons]
      exact hnd
    · rw [insertKey, if_neg h', keysOf_cons, List.nodup_cons]
      refine ⟨fun hx => ?_, ih hnd.2⟩
      rcases mem_keysOf_insertKey hx with h | h
      · exact h' h
      · exact hnd.1 h

theorem keysOf_eraseKey_sublist (key : String) (l : List (String × α)) :
    List.Sublist (keysOf (eraseKey key l)) (keysOf l) := by
  induction l with
  | nil => simp [eraseKey]
  | cons p rest ih =>
    obtain ⟨k, w⟩ := p
    by_cases h' : k = key
    · rw [eraseKey, if_pos h', keysOf_cons]
      exact List.sublist_cons_self _ _
    · rw [eraseKey, if_neg h', keysOf_cons, keysOf_cons]
      exact ih.cons₂ _

theorem keysOf_eraseKey_nodup {key : String} {l : List (String × α)}
    (hnd : (keysOf l).Nodup) : (keysOf (eraseKey key l)).Nodup :=
  (keysOf_eraseKey_sublist key l).nodup hnd

theorem lookupKey_eraseKey_self_nodup {key : String} {l : List (String × α)}
    (hnd : (keysOf l).Nodup) : lookupKey key (eraseKey key l) = none := by
  induction l with
  | nil => simp [eraseKey, lookupKey]
  | cons p rest ih =>
    obtain ⟨k, w⟩ := p
    rw [keysOf_cons, List.nodup_cons] at hnd
    by_cases h' : k = key
    · subst h'
      rw [eraseKey, if_pos rfl, lookupKey_eq_none_iff]
      exact hnd.1
    · rw [eraseKey, if_neg h']
      simp only [lookupKey, if_neg h']
      exact ih hnd.2

theorem length_insertKey_of_not_mem {key : String} {v : α} {l : List (String × α)}
    (h : key ∉ keysOf l) : (insertKey key v l).length = l.length + 1 := by
  induction l with
  | nil => simp [insertKey]
  | cons p rest ih =>
    obtain ⟨k, w⟩ := p
    rw [keysOf_cons] at h
    have hk : ¬ k = key := fun hk => h (hk ▸ List.mem_cons_self _ _)
    have hrest : key ∉ keysOf rest := fun hr => h (List.mem_cons_of_mem _ hr)
    simp [insertKey, hk, ih hrest]

theorem length_eraseKey_of_mem {key : String} {l : List (String × α)}
    (h : key ∈ keysOf l) : (eraseKey key l).length + 1 = l.length := by
  induction l with
  | nil => simp [keysOf] at h
  | cons p rest ih =>
    obtain ⟨k, w⟩ := p
    by_cases h' : k = key
    · simp [eraseKey, h']
    · rw [keysOf_cons] at h
      rcases List.mem_cons.mp h with h | h
      · exact absurd h.symm h'
      · simp [eraseKey, h', ih h]

/-! ### String helpers mirroring the Python primitives -/

/-- Python `not s.strip()`: true when the string has only whitespace. -/
def isBlankStr (s : String) : Bool := s.data.all (fun ch => ch.isWhitespace)

/-- ASCII lower-casing of one character (Python `str.lower` on the
alphabets used by the fallback keyword lists). -/
def lowerChar (c : Char) : Char :=
  if 'A' ≤ c ∧ c ≤ 'Z' then Char.ofNat (c.toNat + 32) else c

/-- Python `s.lower()`. -/
def lowerStr (s : String) : String := ⟨s.data.map lowerChar⟩

/-- Does the first list start with the second? -/
def startsWithList : List Char → List Char → Bool
  | _, [] => true
  | [], _ :: _ => false
  | c :: cs, d :: ds => c = d && startsWithList cs ds

/-- Python `w in s` (substring containment). -/
def containsList : List Char → List Char → Bool
  | [], w => w.isEmpty
  | c :: cs, w => startsWithList (c :: cs) w || containsList cs w

/-- Python `any(word in s for word in ws)`. -/
def containsAnyWord (s : String) (ws : List String) : Bool :=
  ws.any (fun w => containsList s.data w.data)

/-! ### `app/services/error_handler.py` — `SystemErrorHandler`

Timestamps are seconds as `Int`; the circuit-breaker cooldown
`timedelta(minutes=5)` is 300 seconds. -/

inductive ErrorSeverity where
  | LOW
  | MEDIUM
  | HIGH
  | CRITICAL
deriving DecidableEq, Repr

/-- `self.error_thresholds` (`LOW: 10, MEDIUM: 5, HIGH: 3, CRITICAL: 1`). -/
def errorThreshold : ErrorSeverity → Nat
  | .LOW => 10
  | .MEDIUM => 5
  | .HIGH => 3
  | .CRITICAL => 1

inductive BreakerState where
  | CLOSED
  | OPEN
  | HALF_OPEN
deriving DecidableEq, Repr

/-- One value of `self.circuit_breakers[key]`. -/
structure CircuitBreakerEntry where
  state : BreakerState
  openedAt : Int
  failureCount : Nat
  severity : ErrorSeverity
deriving DecidableEq, Repr

/-- One value of `self.error_counts[key]`. -/
structure ErrorCountEntry where
  count : Nat
  firstOccurrence : Int
  lastOccurrence : Int
  severity : ErrorSeverity
  details : List String
deriving DecidableEq, Repr

structure SystemErrorHandler where
  errorCounts : List (String × ErrorCountEntry)
  circuitBreakers : List (String × CircuitBreakerEntry)
deriving DecidableEq, Repr

/-- `key = f"{component}:{error_type}"`. -/
def breakerKey (component errorType : String) : String :=
  component ++ ":" ++ errorType

/-- `SystemErrorHandler._trigger_circuit_breaker`: creates an `OPEN` entry
only when no entry exists for the key; an existing entry — whatever its
state — is left untouched. -/
def trigger_circuit_breaker (h : SystemErrorHandler) (component errorType : String)
    (severity : ErrorSeverity) (now : Int) : SystemErrorHandler :=
  let key := breakerKey component errorType
  match lookupKey key h.circuitBreakers with
  | some _ => h
  | none =>
    let cnt := match lookupKey key h.errorCounts with
      | some e => e.count
      | none => 0
    { h with
      circuitBreakers := h.circuitBreakers ++ [(key, ⟨.OPEN, now, cnt, severity⟩)] }

/-- `SystemErrorHandler.record_error`. -/
def record_error (h : SystemErrorHandler) (errorType component : String)
    (severity : ErrorSeverity) (details : Option String) (now : Int) :
    SystemErrorHandler :=
  let key := breakerKey component errorType
  let entry := match lookupKey key h.errorCounts with
    | some e => e
    | none => ⟨0, now, now, severity, []⟩
  let entry := { entry with
    count := entry.count + 1
    lastOccurrence := now
    details := (match details with
      | some d => entry.details ++ [d]
      | none => entry.details) }
  let h' := { h with errorCounts := insertKey key entry h.errorCounts }
  if entry.count ≥ errorThreshold severity then
    trigger_circuit_breaker h' component errorType severity now
  else
    h'

/-- `SystemErrorHandler.is_circuit_open`; returns the boolean together with
the possibly-mutated handler (`OPEN → HALF_OPEN` after the 5-minute cooldown). -/
def is_circuit_open (h : SystemErrorHandler) (component errorType : String)
    (now : Int) : Bool × SystemErrorHandler :=
  let key := breakerKey component errorType
  match lookupKey key h.circuitBreakers with
  | none => (false, h)
  | some b =>
    if b.state = .OPEN then
      if now - b.openedAt > 300 then
        (false, { h with
          circuitBreakers := insertKey key ({ b with state := .HALF_OPEN }) h.circuitBreakers })
      else
        (true, h)
    else
      (false, h)

/-- `SystemErrorHandler.record_success`. -/
def record_success (h : SystemErrorHandler) (component errorType : String) :
    SystemErrorHandler :=
  let key := breakerKey component errorType
  match lookupKey key h.circuitBreakers with
  | none => h
  | some b =>
    if b.state = .HALF_OPEN then
      { h with
        circuitBreakers := insertKey key ({ b with state := .CLOSED }) h.circuitBreakers }
    else
      h

/-- Arguments of one `record_error` call, for reasoning about call sequences. -/
structure RecordErrorArgs where
  errorType : String
  component : String
  severity : ErrorSeverity
  details : Option String
  now : Int
deriving DecidableEq

def applyRecordError (h : SystemErrorHandler) (a : RecordErrorArgs) :
    SystemErrorHandler :=
  record_error h a.errorType a.component a.severity a.details a.now

/-! ### `app/services/cache_service.py` — `SemanticCache`

The md5 digest of `f"{query}:{model}"` is modelled by the hashed content
itself (the code relies on digest equality coinciding with content
equality).  The sklearn `TfidfVectorizer` (after fitting) and
`cosine_similarity` are external collaborators and appear as function
fields of the cache object, mirroring `self.vectorizer`. -/

structure CacheEntry where
  query : String
  model : String
  response : String
  tokensUsed : Nat
  createdAt : Int
deriving DecidableEq, Repr

/-- The value returned by a cache hit (`response_time_ms`, a wall-clock
measurement, is omitted). -/
structure CacheHit where
  response : String
  cached : Bool
  similarity : ℚ
deriving DecidableEq, Repr

structure SemanticCache where
  similarityThreshold : ℚ
  maxCacheSize : Nat
  ttlSeconds : Int
  cache : List (String × CacheEntry)
  queryVectors : List (String × List ℚ)
  vectorize : String → Option (List ℚ)
  cosineSimilarity : List ℚ → List ℚ → ℚ

/-- `SemanticCache._get_cache_key` (md5 modelled as the identity on the
hashed content `f"{query}:{model}"`). -/
def cache_key (query model : String) : String := query ++ ":" ++ model

/-- `SemanticCache._vectorize_query`: blank queries yield `None`; the
incremental fitting of the vectorizer is abstracted into the pure
`vectorize` field, and vectorizer exceptions into a `none` result. -/
def vectorize_query (c : SemanticCache) (query : String) : Option (List ℚ) :=
  if isBlankStr query then none else c.vectorize query

/-- `SemanticCache._is_expired`: `utcnow() - created_at > timedelta(seconds=ttl)`. -/
def is_expired (c : SemanticCache) (e : CacheEntry) (now : Int) : Bool :=
  now - e.createdAt > c.ttlSeconds

/-- `SemanticCache._remove_entry`: drops the entry and the vector stored
under the entry's query text. -/
def remove_entry (c : SemanticCache) (key : String) : SemanticCache :=
  match lookupKey key c.cache with
  | none => c
  | some e =>
    { c with
      cache := eraseKey key c.cache
      queryVectors := eraseKey e.query c.queryVectors }

/-- `SemanticCache._cleanup_expired`. -/
def cleanup_expired (c : SemanticCache) (now : Int) : SemanticCache :=
  let expiredKeys := (c.cache.filter (fun p => is_expired c p.2 now)).map Prod.fst
  expiredKeys.foldl (fun acc k => remove_entry acc k) c

/-- The first key whose entry has minimal `created_at` (Python `min` keeps
the earliest of equal keys). -/
def oldestKeyAux (best : String × CacheEntry) : List (String × CacheEntry) → String
  | [] => best.1
  | x :: rest => oldestKeyAux (if x.2.createdAt < best.2.createdAt then x else best) rest

/-- `SemanticCache._evict_oldest`. -/
def evict_oldest (c : SemanticCache) : SemanticCache :=
  match c.cache with
  | [] => c
  | x :: rest => remove_entry c (oldestKeyAux x rest)

/-- The scan inside `SemanticCache._find_similar_query`: iterate the cache
in insertion order, keep a strictly better similarity that also reaches the
threshold. -/
def findBestLoop (c : SemanticCache) (qv : List ℚ) (m : String) :
    List (String × CacheEntry) → ℚ → Option String → Option String
  | [], _, best => best
  | (k, e) :: rest, bestSim, best =>
    if e.model = m then
      match lookupKey e.query c.queryVectors with
      | some cv =>
        if c.cosineSimilarity qv cv > bestSim ∧
            c.cosineSimilarity qv cv ≥ c.similarityThreshold then
          findBestLoop c qv m rest (c.cosineSimilarity qv cv) (some k)
        else
          findBestLoop c qv m rest bestSim best
      | none => findBestLoop c qv m rest bestSim best
    else
      findBestLoop c qv m rest bestSim best

/-- `SemanticCache._find_similar_query`. -/
def find_similar_query (c : SemanticCache) (query m : String) : Option String :=
  if c.queryVectors.isEmpty then none
  else
    match vectorize_query c query with
    | none => none
    | some qv => findBestLoop c qv m c.cache 0 none

/-- The similarity branch of `SemanticCache.get` (after the exact-key miss):
recompute the similarity of the matched entry; if either vector is
unavailable the `return` inside the `try` is skipped and the lookup falls
through to `None`. -/
def get_similar (c : SemanticCache) (query m : String) (now : Int) : Option CacheHit :=
  match find_similar_query c query m with
  | none => none
  | some k =>
    match lookupKey k c.cache with
    | none => none
    | some e =>
      if is_expired c e now then none
      else
        match vectorize_query c query, lookupKey e.query c.queryVectors with
        | some qv, some cv => some ⟨e.response, true, c.cosineSimilarity qv cv⟩
        | _, _ => none

/-- `SemanticCache.get`: blank-query guard, lazy expiry cleanup, exact-key
lookup (similarity `1.0`), then the similarity scan. -/
def SemanticCache.get (c₀ : SemanticCache) (query m : String) (now : Int) :
    Option CacheHit :=
  if isBlankStr query then none
  else
    let c := cleanup_expired c₀ now
    match lookupKey (cache_key query m) c.cache with
    | some e =>
      if ¬ is_expired c e now then some ⟨e.response, true, 1⟩
      else get_similar c query m now
    | none => get_similar c query m now

/-- `SemanticCache.set`: reject blank queries and empty responses, evict the
oldest entry at capacity, store the entry and (when vectorization succeeds)
the query vector. -/
def SemanticCache.set (c₀ : SemanticCache) (query m response : String)
    (tokensUsed : Nat) (now : Int) : SemanticCache :=
  if isBlankStr query ∨ response = "" then c₀
  else
    let c := if c₀.cache.length ≥ c₀.maxCacheSize then evict_oldest c₀ else c₀
    let qv := vectorize_query c query
    let c := { c with
      cache := insertKey (cache_key query m) ⟨query, m, response, tokensUsed, now⟩ c.cache }
    match qv with
    | some v => { c with queryVectors := insertKey query v c.queryVectors }
    | none => c

/-! ### `app/routes/query.py` — `QueryProcessor` fallback routing

One HTTP attempt of a transport is abstracted into an `AttemptOutcome`
oracle indexed by the attempt number.  Raised exceptions become
`Except.error ()`; backoff sleeps are timing only and are dropped. -/

inductive AttemptOutcome where
  | success (content : String) (tokens : Option Nat) (cacheHit : Bool)
  | rateLimited
  | serverError
  | unauthorized
  | badStatus
  | connectFailed
  | timedOut
  | unexpectedError
deriving DecidableEq, Repr

/-- `QueryProcessor._call_llm_via_kong` (max_retries = 2).  In the source,
every non-200 path inside the `try` either retries explicitly (429, ≥500)
or raises an `HTTPException` that the final generic `except Exception`
handler catches and also retries; so every non-success outcome retries
while attempts remain, and after the last attempt the function raises. -/
def callKongLoop (outcomes : Nat → AttemptOutcome) (attempt : Nat) :
    Nat → Except Unit (String × Option Nat × Bool)
  | 0 =>
    match outcomes attempt with
    | .success c t hit => .ok (c, t, hit)
    | _ => .error ()
  | fuel + 1 =>
    match outcomes attempt with
    | .success c t hit => .ok (c, t, hit)
    | _ => callKongLoop outcomes (attempt + 1) fuel

def kongMaxRetries : Nat := 2

def call_llm_via_kong (outcomes : Nat → AttemptOutcome) :
    Except Unit (String × Option Nat × Bool) :=
  callKongLoop outcomes 0 kongMaxRetries

/-- `QueryProcessor._call_groq_direct` (max_retries = 3).  Unlike the Kong
path this function re-raises `HTTPException`s (`except HTTPException:
raise`), so a 401 or an unrecognized status aborts immediately with no
retry, while 429/≥500/connect/timeout/unexpected errors retry; the cached
flag of a success is always `False`. -/
def callDirectLoop (outcomes : Nat → AttemptOutcome) (attempt : Nat) :
    Nat → Except Unit (String × Option Nat × Bool)
  | 0 =>
    match outcomes attempt with
    | .success c t _ => .ok (c, t, false)
    | _ => .error ()
  | fuel + 1 =>
    match outcomes attempt with
    | .success c t _ => .ok (c, t, false)
    | .rateLimited => callDirectLoop outcomes (attempt + 1) fuel
    | .serverError => callDirectLoop outcomes (attempt + 1) fuel
    | .unauthorized => .error ()
    | .badStatus => .error ()
    | .connectFailed => callDirectLoop outcomes (attempt + 1) fuel
    | .timedOut => callDirectLoop outcomes (attempt + 1) fuel
    | .unexpectedError => callDirectLoop outcomes (attempt + 1) fuel

def directMaxRetries : Nat := 3

def call_groq_direct (outcomes : Nat → AttemptOutcome) :
    Except Unit (String × Option Nat × Bool) :=
  callDirectLoop outcomes 0 directMaxRetries

/-- The static fallback responses of
`QueryProcessor._generate_fallback_response`. -/
def fallbackGreetingResponse : String :=
  "Hello! I\x27m currently experiencing technical difficulties, but I\x27m here to help. Could you please try your question again in a moment?"

def fallbackTechnicalResponse : String :=
  "I apologize, but I\x27m experiencing technical issues right now. For immediate technical support, please contact our support team directly or try again in a few minutes."

def fallbackGeneralResponse : String :=
  "I\x27m sorry, but I\x27m currently unable to process your request due to technical difficulties. Please try again shortly, or contact our support team for immediate assistance."

/-- `QueryProcessor._generate_fallback_response`: keyword heuristics on the
lower-cased query (greeting words, then technical words, then length > 100,
else general). -/
def generate_fallback_response (query : String) : String :=
  let ql := lowerStr query
  if containsAnyWord ql ["hello", "hi", "hey", "good morning", "good afternoon"] then
    fallbackGreetingResponse
  else if containsAnyWord ql ["technical", "api", "code", "error", "bug", "integration"] then
    fallbackTechnicalResponse
  else if query.length > 100 then
    fallbackTechnicalResponse
  else
    fallbackGeneralResponse

/-- The ordered fallback plan of
`QueryProcessor._process_llm_request_with_fallbacks`. -/
def fallbackChain (preferredModel : String) : List (String × String) :=
  [("kong", preferredModel),
   ("direct", preferredModel),
   ("direct", "llama-3.3-70b-versatile"),
   ("direct", "llama-3.1-8b-instant")]

structure DispatchResult where
  response : String
  tokens : Option Nat
  cached : Bool
  modelUsed : String
deriving DecidableEq, Repr

/-- `QueryProcessor._process_llm_request_with_fallbacks`, with the list of
plan steps that were actually attempted alongside the result.  The loop
catches every exception from a step (`except Exception: continue`) and
advances; the function body never reads or records any circuit-breaker
state.  `bStep` gives the per-attempt outcomes of each of the four plan
steps. -/
def process_llm_request_with_fallbacks (query preferredModel : String)
    (b0 b1 b2 b3 : Nat → AttemptOutcome) :
    DispatchResult × List (String × String) :=
  match call_llm_via_kong b0 with
  | .ok (c, t, hit) => (⟨c, t, hit, preferredModel⟩, (fallbackChain preferredModel).take 1)
  | .error _ =>
    match call_groq_direct b1 with
    | .ok (c, t, hit) => (⟨c, t, hit, preferredModel⟩, (fallbackChain preferredModel).take 2)
    | .error _ =>
      match call_groq_direct b2 with
      | .ok (c, t, hit) =>
        (⟨c, t, hit, "llama-3.3-70b-versatile"⟩, (fallbackChain preferredModel).take 3)
      | .error _ =>
        match call_groq_direct b3 with
        | .ok (c, t, hit) =>
          (⟨c, t, hit, "llama-3.1-8b-instant"⟩, (fallbackChain preferredModel).take 4)
        | .error _ =>
          (⟨generate_fallback_response query, some 0, false, "fallback"⟩,
            fallbackChain preferredModel)

/-! ### `app/services/complexity_analyzer.py` — `ComplexityAnalyzer`

A query is abstracted by the features the analyzer extracts from it: the
word count, the technical-term count, and, for each ordered regex group of
`_analyze_question_type`, whether some regex of the group matches (the
regex engine itself is the abstracted collaborator).  The 10000-character
truncation guard only shortens the analyzed text; the features describe
the text actually analyzed. -/

structure QueryFeatures where
  isBlank : Bool
  wordCount : Nat
  technicalTermCount : Nat
  matchesSimpleGroup : Bool
  matchesIntegrationGroup : Bool
  matchesTroubleshootingGroup : Bool
  matchesMultiStepGroup : Bool
  matchesTechnicalGroup : Bool
  containsTechnicalTerm : Bool
deriving DecidableEq, Repr

inductive QueryType where
  | SIMPLE_FAQ
  | TECHNICAL
  | MULTI_STEP
  | TROUBLESHOOTING
  | INTEGRATION
deriving DecidableEq, Repr

/-- `ComplexityAnalyzer._analyze_question_type`: first matching group in
the order simple → integration → troubleshooting → multi-step → technical,
then the word-count / technical-term fallback. -/
def analyze_question_type (q : QueryFeatures) : QueryType :=
  if q.matchesSimpleGroup then .SIMPLE_FAQ
  else if q.matchesIntegrationGroup then .INTEGRATION
  else if q.matchesTroubleshootingGroup then .TROUBLESHOOTING
  else if q.matchesMultiStepGroup then .MULTI_STEP
  else if q.matchesTechnicalGroup then .TECHNICAL
  else if q.wordCount > 30 then .MULTI_STEP
  else if q.containsTechnicalTerm then .TECHNICAL
  else .SIMPLE_FAQ

/-- The `complexity_weights` lookup of
`ComplexityAnalyzer._analyze_question_type_score`. -/
def questionTypeWeight : QueryType → ℚ
  | .SIMPLE_FAQ => 0
  | .TECHNICAL => 15 / 100
  | .MULTI_STEP => 25 / 100
  | .TROUBLESHOOTING => 20 / 100
  | .INTEGRATION => 30 / 100

/-- `ComplexityAnalyzer._calculate_length_score`: `min(word_count / 40, 0.5)`. -/
def length_score (q : QueryFeatures) : ℚ := min ((q.wordCount : ℚ) / 40) (1 / 2)

/-- `ComplexityAnalyzer._calculate_technical_score`:
`min(technical_count / 8 * 0.4, 0.4)`. -/
def technical_score (q : QueryFeatures) : ℚ :=
  min ((q.technicalTermCount : ℚ) / 8 * (4 / 10)) (4 / 10)

/-- `ComplexityAnalyzer._analyze_question_type_score`. -/
def question_type_score (q : QueryFeatures) : ℚ :=
  questionTypeWeight (analyze_question_type q)

/-- `ComplexityAnalyzer.calculate_complexity` (the `except` branch that
returns `0.5` is unreachable in the embedding: each sub-score is total). -/
def calculate_complexity (q : QueryFeatures) : ℚ :=
  if q.isBlank then 0
  else min (length_score q + technical_score q + question_type_score q) 1

/-! ### `app/services/escalation_manager.py` — `EscalationManager` -/

structure EscalationManager where
  complexityThreshold : ℚ
  sentimentThreshold : ℚ
deriving DecidableEq, Repr

/-- The constructor defaults: `complexity_threshold = 0.8`,
`sentiment_threshold = -0.5`. -/
def defaultEscalationManager : EscalationManager := ⟨mkRat 8 10, mkRat (-5) 10⟩

/-- `EscalationManager.should_escalate`: reasons are appended in the fixed
order complexity then sentiment; escalate when the list is non-empty. -/
def should_escalate (em : EscalationManager) (complexityScore sentimentScore : ℚ) :
    Bool × List String :=
  let reasons :=
    (if complexityScore > em.complexityThreshold then ["complexity"] else []) ++
    (if sentimentScore < em.sentimentThreshold then ["sentiment"] else [])
  (reasons.length > 0, reasons)

/-! ### Theorems for the claims -/

/-- Claim C9: `should_escalate` returns true exactly when
`complexity > 0.8` or `sentiment < -0.5`; the reasons list is the ordered
subset of `{complexity, sentiment}` whose condition fired, complexity
first; and the three concrete examples from the specification hold. -/
theorem claim_C9_should_escalate :
    (∀ cs ss : ℚ,
      ((should_escalate defaultEscalationManager cs ss).1 = true ↔
        cs > mkRat 8 10 ∨ ss < mkRat (-5) 10) ∧
      (should_escalate defaultEscalationManager cs ss).2 =
        (if cs > mkRat 8 10 then ["complexity"] else []) ++
        (if ss < mkRat (-5) 10 then ["sentiment"] else [])) ∧
    should_escalate defaultEscalationManager (mkRat 9 10) 0 = (true, ["complexity"]) ∧
    should_escalate defaultEscalationManager (mkRat 3 10) (mkRat (-7) 10) = (true, ["sentiment"]) ∧
    should_escalate defaultEscalationManager (mkRat 3 10) (mkRat 2 10) = (false, []) := by
  refine ⟨fun cs ss => ?_, by decide, by decide, by decide⟩
  by_cases hc : cs > mkRat 8 10 <;> by_cases hs : ss < mkRat (-5) 10 <;>
    simp [should_escalate, defaultEscalationManager, hc, hs]

/-- Claim C8: the complexity score is
`min(lengthScore + technicalTermScore + questionTypeScore, 1)` with
`lengthScore = min(wordCount/40, 0.5)`,
`technicalTermScore = min(technicalTermCount/8 * 0.4, 0.4)` and the fixed
question-type lookup resolved by the ordered pattern groups; consequently
the score always lies in `[0, 1]`. -/
theorem claim_C8_complexity_formula_and_bounds :
    (∀ q : QueryFeatures, q.isBlank = false →
      calculate_complexity q =
        min (min ((q.wordCount : ℚ) / 40) (1 / 2) +
             min ((q.technicalTermCount : ℚ) / 8 * (4 / 10)) (4 / 10) +
             questionTypeWeight (analyze_question_type q)) 1) ∧
    (∀ q : QueryFeatures,
      0 ≤ calculate_complexity q ∧ calculate_complexity q ≤ 1) := by
  constructor
  · intro q hq
    simp [calculate_complexity, hq, length_score, technical_score, question_type_score]
  · intro q
    unfold calculate_complexity
    by_cases hb : q.isBlank = true
    · simp [hb]
    · simp only [hb, if_false]
      have hlen : 0 ≤ length_score q := by
        unfold length_score
        positivity
      have htech : 0 ≤ technical_score q := by
        unfold technical_score
        positivity
      have hqt : 0 ≤ question_type_score q := by
        unfold question_type_score
        cases analyze_question_type q <;> norm_num [questionTypeWeight]
      constructor
      · exact le_min (by linarith) (by norm_num)
      · exact min_le_right _ _

/-- Claim C1: when every `(transport, model)` step of the ordered fallback
chain fails, `_process_llm_request_with_fallbacks` returns the static
keyword-heuristic fallback response with `modelUsed = "fallback"`,
`tokens = 0`, `cached = false`, having attempted every step of the plan in
order; the loop consumes every step exception, so nothing propagates. -/
theorem claim_C1_all_steps_fail_static_fallback
    (query pm : String) (b0 b1 b2 b3 : Nat → AttemptOutcome)
    (h0 : call_llm_via_kong b0 = .error ())
    (h1 : call_groq_direct b1 = .error ())
    (h2 : call_groq_direct b2 = .error ())
    (h3 : call_groq_direct b3 = .error ()) :
    process_llm_request_with_fallbacks query pm b0 b1 b2 b3 =
      (⟨generate_fallback_response query, some 0, false, "fallback"⟩,
        fallbackChain pm) := by
  simp [process_llm_request_with_fallbacks, h0, h1, h2, h3, fallbackChain]

/-- Witness for claim C1: with every attempt of every step failing at the
connection level, dispatch of a greeting query yields the greeting bucket
of the static fallback, zero tokens, `cached = false`. -/
theorem claim_C1_witness :
    process_llm_request_with_fallbacks "hello there" "query-model"
        (fun _ => .connectFailed) (fun _ => .connectFailed)
        (fun _ => .connectFailed) (fun _ => .connectFailed) =
      (⟨generate_fallback_response "hello there", some 0, false, "fallback"⟩,
        fallbackChain "query-model") :=
  claim_C1_all_steps_fail_static_fallback "hello there" "query-model"
    _ _ _ _ rfl rfl rfl rfl

/-- Witness query features for the complexity formula: a non-blank query of
12 words with 2 technical terms matching only the technical pattern group. -/
def witnessFeatures : QueryFeatures :=
  ⟨false, 12, 2, false, false, false, false, true, true⟩

/-- Witness for claim C8 at `witnessFeatures`. -/
theorem claim_C8_witness :
    calculate_complexity witnessFeatures =
      min (min ((12 : ℚ) / 40) (1 / 2) + min ((2 : ℚ) / 8 * (4 / 10)) (4 / 10) +
        questionTypeWeight (analyze_question_type witnessFeatures)) 1 ∧
    0 ≤ calculate_complexity witnessFeatures ∧
    calculate_complexity witnessFeatures ≤ 1 :=
  ⟨claim_C8_complexity_formula_and_bounds.1 witnessFeatures rfl,
   claim_C8_complexity_formula_and_bounds.2 witnessFeatures⟩

/-- A handler whose breaker for `svc:op` probes in HALF_OPEN with the
cumulative error count one failure below the HIGH threshold. -/
def halfOpenHandler : SystemErrorHandler :=
  { errorCounts := [("svc:op", ⟨2, 0, 0, .HIGH, []⟩)]
    circuitBreakers := [("svc:op", ⟨.HALF_OPEN, 0, 3, .HIGH⟩)] }

/-- Counterexample for claim C2: with the `svc:op` breaker in HALF_OPEN, a
recorded failure (which pushes the cumulative count to the HIGH threshold
and thus reaches `_trigger_circuit_breaker`) leaves the breaker in
HALF_OPEN — it does not transition back to OPEN, because
`_trigger_circuit_breaker` refuses to touch an existing entry. -/
theorem claim_C2_counterexample :
    lookupKey "svc:op" halfOpenHandler.circuitBreakers =
      some ⟨.HALF_OPEN, 0, 3, .HIGH⟩ ∧
    lookupKey "svc:op"
        (record_error halfOpenHandler "op" "svc" .HIGH none 400).circuitBreakers =
      some ⟨.HALF_OPEN, 0, 3, .HIGH⟩ ∧
    lookupKey "svc:op"
        (record_error halfOpenHandler "op" "svc" .HIGH none 400).errorCounts =
      some ⟨3, 0, 400, .HIGH, []⟩ ∧
    BreakerState.HALF_OPEN ≠ BreakerState.OPEN := by
  refine ⟨by decide, by decide, by decide, by decide⟩

/-- `record_error` never changes an existing circuit-breaker entry: it only
updates `error_counts`, and `_trigger_circuit_breaker` returns unchanged
when the key is already present and only appends a new key otherwise. -/
theorem record_error_preserves_breaker (h : SystemErrorHandler)
    (errorType component : String) (severity : ErrorSeverity)
    (details : Option String) (now : Int) (key : String) (b : CircuitBreakerEntry)
    (hb : lookupKey key h.circuitBreakers = some b) :
    lookupKey key (record_error h errorType component severity details now).circuitBreakers =
      some b := by
  unfold record_error trigger_circuit_breaker
  cases hx : lookupKey (breakerKey component errorType) h.circuitBreakers with
  | some b' => simp only [hx]
               split <;> simp [hb]
  | none =>
    simp only [hx]
    split
    · exact lookupKey_append_left key b _ _ hb
    · exact hb

/-- Claim C2 (amended): for a breaker in HALF_OPEN, the first recorded
success transitions it to CLOSED; a recorded failure while HALF_OPEN
leaves the breaker entry unchanged — the code never reopens an existing
breaker. -/
theorem claim_C2_half_open_transitions (h : SystemErrorHandler)
    (component errorType : String) (b : CircuitBreakerEntry)
    (hb : lookupKey (breakerKey component errorType) h.circuitBreakers = some b)
    (hs : b.state = .HALF_OPEN) :
    lookupKey (breakerKey component errorType)
        (record_success h component errorType).circuitBreakers =
      some ({ b with state := .CLOSED }) ∧
    ∀ (severity : ErrorSeverity) (details : Option String) (now : Int),
      lookupKey (breakerKey component errorType)
        (record_error h errorType component severity details now).circuitBreakers =
      some b := by
  constructor
  · unfold record_success
    simp only [hb, hs, if_pos rfl]
    exact lookupKey_insertKey_self _ _ _
  · intro severity details now
    exact record_error_preserves_breaker h errorType component severity details now _ b hb

/-- Witness for claim C2 (amended) at `halfOpenHandler`. -/
theorem claim_C2_witness :
    lookupKey (breakerKey "svc" "op")
        (record_success halfOpenHandler "svc" "op").circuitBreakers =
      some ⟨.CLOSED, 0, 3, .HIGH⟩ ∧
    lookupKey (breakerKey "svc" "op")
        (record_error halfOpenHandler "op" "svc" .HIGH none 400).circuitBreakers =
      some ⟨.HALF_OPEN, 0, 3, .HIGH⟩ :=
  ⟨(claim_C2_half_open_transitions halfOpenHandler "svc" "op"
      ⟨.HALF_OPEN, 0, 3, .HIGH⟩ (by decide) rfl).1,
   (claim_C2_half_open_transitions halfOpenHandler "svc" "op"
      ⟨.HALF_OPEN, 0, 3, .HIGH⟩ (by decide) rfl).2 .HIGH none 400⟩

/-- A handler whose only breaker is OPEN, opened at time 0. -/
def openKongHandler : SystemErrorHandler :=
  ⟨[], [("query_processor:kong_gateway_failure", ⟨.OPEN, 0, 3, .HIGH⟩)]⟩

/-- Counterexample for claim C3: at 60 seconds after opening (well inside
the 5-minute cooldown) the breaker reports open, yet a dispatch in the same
state attempts every step of the fallback plan — including the first
(Kong) step — because `_process_llm_request_with_fallbacks` never consults
`is_circuit_open`; no step is ever skipped. -/
theorem claim_C3_counterexample :
    (is_circuit_open openKongHandler "query_processor" "kong_gateway_failure" 60).1 = true ∧
    (process_llm_request_with_fallbacks "q" "query-model"
        (fun _ => .connectFailed) (fun _ => .connectFailed)
        (fun _ => .connectFailed) (fun _ => .connectFailed)).2 =
      fallbackChain "query-model" ∧
    ("kong", "query-model") ∈
      (process_llm_request_with_fallbacks "q" "query-model"
        (fun _ => .connectFailed) (fun _ => .connectFailed)
        (fun _ => .connectFailed) (fun _ => .connectFailed)).2 := by
  refine ⟨by decide, by decide, by decide⟩

/-- Claim C3 (amended): the fallback loop never consults circuit-breaker
state (it takes no breaker input at all); the first step is always
attempted and step `i+1` is attempted exactly when steps `1..i` all
failed: the attempted prefix of the plan is determined solely by the step
outcomes. -/
theorem claim_C3_no_step_skipped (query pm : String)
    (b0 b1 b2 b3 : Nat → AttemptOutcome) :
    (process_llm_request_with_fallbacks query pm b0 b1 b2 b3).2.head? =
      some ("kong", pm) ∧
    (process_llm_request_with_fallbacks query pm b0 b1 b2 b3).2 =
      (fallbackChain pm).take
        (process_llm_request_with_fallbacks query pm b0 b1 b2 b3).2.length ∧
    ((process_llm_request_with_fallbacks query pm b0 b1 b2 b3).2.length ≥ 2 ↔
      call_llm_via_kong b0 = .error ()) ∧
    ((process_llm_request_with_fallbacks query pm b0 b1 b2 b3).2.length ≥ 3 ↔
      call_llm_via_kong b0 = .error () ∧ call_groq_direct b1 = .error ()) ∧
    ((process_llm_request_with_fallbacks query pm b0 b1 b2 b3).2.length ≥ 4 ↔
      call_llm_via_kong b0 = .error () ∧ call_groq_direct b1 = .error () ∧
        call_groq_direct b2 = .error ()) := by
  unfold process_llm_request_with_fallbacks
  cases h0 : call_llm_via_kong b0 with
  | ok v0 =>
    obtain ⟨c, t, hit⟩ := v0
    simp [fallbackChain]
  | error u0 =>
    cases u0
    cases h1 : call_groq_direct b1 with
    | ok v1 =>
      obtain ⟨c, t, hit⟩ := v1
      simp [fallbackChain]
    | error u1 =>
      cases u1
      cases h2 : call_groq_direct b2 with
      | ok v2 =>
        obtain ⟨c, t, hit⟩ := v2
        simp [fallbackChain]
      | error u2 =>
        cases u2
        cases h3 : call_groq_direct b3 with
        | ok v3 =>
          obtain ⟨c, t, hit⟩ := v3
          simp [fallbackChain]
        | error u3 =>
          cases u3
          simp [fallbackChain]

/-- Claim C10: once a circuit-breaker entry exists, `record_error` never
changes it; `record_success` never touches the error counts; hence no
sequence of `record_error` calls can ever change the breaker entry — in
particular a breaker that has left the OPEN state is never set back to
OPEN by recorded errors. -/
theorem claim_C10_breaker_entry_immutable (h : SystemErrorHandler)
    (component errorType : String) (b : CircuitBreakerEntry)
    (hb : lookupKey (breakerKey component errorType) h.circuitBreakers = some b) :
    (∀ (et2 comp2 : String) (severity : ErrorSeverity) (details : Option String) (now : Int),
      lookupKey (breakerKey component errorType)
        (record_error h et2 comp2 severity details now).circuitBreakers = some b) ∧
    (∀ comp2 et2 : String, (record_success h comp2 et2).errorCounts = h.errorCounts) ∧
    (∀ ops : List RecordErrorArgs,
      lookupKey (breakerKey component errorType)
        (ops.foldl applyRecordError h).circuitBreakers = some b) ∧
    (b.state ≠ .OPEN → ∀ (ops : List RecordErrorArgs) (b' : CircuitBreakerEntry),
      lookupKey (breakerKey component errorType)
        (ops.foldl applyRecordError h).circuitBreakers = some b' →
      b'.state ≠ .OPEN) := by
  have hfold : ∀ (ops : List RecordErrorArgs) (h' : SystemErrorHandler),
      lookupKey (breakerKey component errorType) h'.circuitBreakers = some b →
      lookupKey (breakerKey component errorType)
        (ops.foldl applyRecordError h').circuitBreakers = some b := by
    intro ops
    induction ops with
    | nil => intro h' hb'; exact hb'
    | cons a rest ih =>
      intro h' hb'
      rw [List.foldl_cons]
      exact ih _ (record_error_preserves_breaker h' a.errorType a.component
        a.severity a.details a.now _ b hb')
  refine ⟨?_, ?_, fun ops => hfold ops h hb, ?_⟩
  · intro et2 comp2 severity details now
    exact record_error_preserves_breaker h et2 comp2 severity details now _ b hb
  · intro comp2 et2
    unfold record_success
    cases hx : lookupKey (breakerKey comp2 et2) h.circuitBreakers with
    | none => simp [hx]
    | some b' =>
      simp only [hx]
      split <;> rfl
  · intro hsne ops b' hb'
    have := hfold ops h hb
    rw [this] at hb'
    injection hb' with hbb
    exact hbb ▸ hsne

/-- Witness for claim C10 at `halfOpenHandler` with a two-call error
sequence (one of which maps to the breaker's own key). -/
theorem claim_C10_witness :
    lookupKey (breakerKey "svc" "op")
      (([⟨"op", "svc", .HIGH, none, 50⟩, ⟨"other", "svc", .CRITICAL, some "boom", 60⟩] :
          List RecordErrorArgs).foldl applyRecordError halfOpenHandler).circuitBreakers =
      some ⟨.HALF_OPEN, 0, 3, .HIGH⟩ :=
  (claim_C10_breaker_entry_immutable halfOpenHandler "svc" "op"
      ⟨.HALF_OPEN, 0, 3, .HIGH⟩ (by decide)).2.2.1
    [⟨"op", "svc", .HIGH, none, 50⟩, ⟨"other", "svc", .CRITICAL, some "boom", 60⟩]

/-! ### Support lemmas about the cache operations -/

theorem remove_entry_ttlSeconds (c : SemanticCache) (k : String) :
    (remove_entry c k).ttlSeconds = c.ttlSeconds := by
  unfold remove_entry
  cases hx : lookupKey k c.cache <;> simp [hx]

theorem remove_entry_vectorize (c : SemanticCache) (k : String) :
    (remove_entry c k).vectorize = c.vectorize := by
  unfold remove_entry
  cases hx : lookupKey k c.cache <;> simp [hx]

theorem remove_entry_cache_nodup (c : SemanticCache) (k : String)
    (hnd : (keysOf c.cache).Nodup) : (keysOf (remove_entry c k).cache).Nodup := by
  unfold remove_entry
  cases hx : lookupKey k c.cache with
  | none => simpa [hx] using hnd
  | some e => simpa [hx] using keysOf_eraseKey_nodup hnd

theorem remove_entry_cache_lookup_ne (c : SemanticCache) (k key : String)
    (h : key ≠ k) :
    lookupKey key (remove_entry c k).cache = lookupKey key c.cache := by
  unfold remove_entry
  cases hx : lookupKey k c.cache with
  | none => simp [hx]
  | some e => simpa [hx] using lookupKey_eraseKey_ne key k c.cache h

theorem foldl_remove_entry_ttlSeconds (ks : List String) :
    ∀ c : SemanticCache,
      ((ks.foldl (fun acc k => remove_entry acc k) c).ttlSeconds) = c.ttlSeconds := by
  induction ks with
  | nil => intro c; rfl
  | cons k ks ih =>
    intro c
    rw [List.foldl_cons, ih, remove_entry_ttlSeconds]

theorem cleanup_expired_ttlSeconds (c : SemanticCache) (now : Int) :
    (cleanup_expired c now).ttlSeconds = c.ttlSeconds :=
  foldl_remove_entry_ttlSeconds _ c

theorem foldl_remove_entry_lookup (ks : List String) :
    ∀ (c : SemanticCache) (key : String), key ∉ ks →
      lookupKey key ((ks.foldl (fun acc k => remove_entry acc k) c)).cache =
        lookupKey key c.cache := by
  induction ks with
  | nil => intro c key _; rfl
  | cons k ks ih =>
    intro c key hk
    rw [List.foldl_cons, ih _ key (fun hm => hk (List.mem_cons_of_mem _ hm)),
        remove_entry_cache_lookup_ne c k key (fun he => hk (he ▸ List.mem_cons_self _ _))]

theorem evict_oldest_ttlSeconds (c : SemanticCache) :
    (evict_oldest c).ttlSeconds = c.ttlSeconds := by
  unfold evict_oldest
  cases hx : c.cache with
  | nil => rfl
  | cons x rest => exact remove_entry_ttlSeconds c _

theorem evict_oldest_vectorize (c : SemanticCache) :
    (evict_oldest c).vectorize = c.vectorize := by
  unfold evict_oldest
  cases hx : c.cache with
  | nil => rfl
  | cons x rest => exact remove_entry_vectorize c _

/-- The similarity branch of `get` only ever hands back the response of a
cache entry that passed the expiry check. -/
theorem get_similar_returns_entry (c : SemanticCache) (q m : String) (now : Int)
    (res : CacheHit) (h : get_similar c q m now = some res) :
    ∃ k e, lookupKey k c.cache = some e ∧ res.response = e.response ∧
      is_expired c e now = false := by
  unfold get_similar at h
  cases hf : find_similar_query c q m with
  | none => simp only [hf] at h; exact absurd h (by simp)
  | some k =>
    simp only [hf] at h
    cases hl : lookupKey k c.cache with
    | none => simp only [hl] at h; exact absurd h (by simp)
    | some e =>
      simp only [hl] at h
      cases hexp : is_expired c e now with
      | true => simp only [hexp, if_true] at h; exact absurd h (by simp)
      | false =>
        simp only [hexp, Bool.false_eq_true, if_false] at h
        cases hv : vectorize_query c q with
        | none => simp only [hv] at h; exact absurd h (by simp)
        | some qv =>
          simp only [hv] at h
          cases hcv : lookupKey e.query c.queryVectors with
          | none => simp only [hcv] at h; exact absurd h (by simp)
          | some cv =>
            simp only [hcv, Option.some.injEq] at h
            exact ⟨k, e, hl, by rw [← h], hexp⟩

/-- When the cleanup pass leaves the cache and vector store empty, `get`
misses on both the exact-key path and the similarity path. -/
theorem get_none_of_clean_empty (c : SemanticCache) (q m : String) (t₁ : Int)
    (hc : (cleanup_expired c t₁).cache = [])
    (hv : (cleanup_expired c t₁).queryVectors = []) :
    SemanticCache.get c q m t₁ = none := by
  unfold SemanticCache.get
  cases hb : isBlankStr q with
  | true => simp [hb]
  | false =>
    simp only [hb, Bool.false_eq_true, if_false, hc]
    simp only [lookupKey]
    unfold get_similar find_similar_query
    simp [hv]

/-- The shape of `set` on an empty cache. -/
theorem set_empty_shape (θ : ℚ) (sz : Nat) (ttl : Int)
    (vec : String → Option (List ℚ)) (cosSim : List ℚ → List ℚ → ℚ)
    (q m r : String) (tk : Nat) (t₀ : Int)
    (hq : isBlankStr q = false) (hr : r ≠ "") :
    SemanticCache.set ⟨θ, sz, ttl, [], [], vec, cosSim⟩ q m r tk t₀ =
      ⟨θ, sz, ttl, [(cache_key q m, ⟨q, m, r, tk, t₀⟩)],
        (match vec q with | some v => [(q, v)] | none => []), vec, cosSim⟩ := by
  unfold SemanticCache.set
  rw [if_neg (by simp [hq, hr])]
  have hevict : evict_oldest (⟨θ, sz, ttl, [], [], vec, cosSim⟩ : SemanticCache) =
      ⟨θ, sz, ttl, [], [], vec, cosSim⟩ := rfl
  simp only [hevict, ite_self, vectorize_query, hq, Bool.false_eq_true, if_false]
  cases hv : vec q <;> simp [insertKey, hv]

/-- Claim C4: `get` never returns an entry whose age exceeds the configured
TTL — whatever it returns is the response of an entry that passed the
expiry check after the cleanup pass — and an entry inserted into an empty
cache and queried after the TTL has elapsed is a miss on both the
exact-key path and the similarity path. -/
theorem claim_C4_ttl_expiry :
    (∀ (c : SemanticCache) (q m : String) (now : Int) (res : CacheHit),
      SemanticCache.get c q m now = some res →
      ∃ k e, lookupKey k (cleanup_expired c now).cache = some e ∧
        res.response = e.response ∧ ¬ (now - e.createdAt > c.ttlSeconds)) ∧
    (∀ (θ : ℚ) (sz : Nat) (ttl : Int) (vec : String → Option (List ℚ))
        (cosSim : List ℚ → List ℚ → ℚ) (q m r : String) (tk : Nat) (t₀ t₁ : Int),
      ttl < t₁ - t₀ →
      SemanticCache.get
        (SemanticCache.set ⟨θ, sz, ttl, [], [], vec, cosSim⟩ q m r tk t₀) q m t₁ =
        none) := by
  constructor
  · intro c q m now res h
    unfold SemanticCache.get at h
    cases hb : isBlankStr q with
    | true => simp only [hb, if_true] at h; exact absurd h (by simp)
    | false =>
      simp only [hb, Bool.false_eq_true, if_false] at h
      have httl := cleanup_expired_ttlSeconds c now
      have hsim : get_similar (cleanup_expired c now) q m now = some res →
          ∃ k e, lookupKey k (cleanup_expired c now).cache = some e ∧
            res.response = e.response ∧ ¬ (now - e.createdAt > c.ttlSeconds) := by
        intro hres
        obtain ⟨k, e, hk, hresp, hexp⟩ :=
          get_similar_returns_entry (cleanup_expired c now) q m now res hres
        refine ⟨k, e, hk, hresp, ?_⟩
        simp only [is_expired, httl, decide_eq_false_iff_not] at hexp
        exact hexp
      cases hl : lookupKey (cache_key q m) (cleanup_expired c now).cache with
      | none =>
        simp only [hl] at h
        exact hsim h
      | some e =>
        simp only [hl] at h
        cases hexp : is_expired (cleanup_expired c now) e now with
        | true =>
          simp only [hexp, Bool.not_true, Bool.false_eq_true, if_false] at h
          exact hsim h
        | false =>
          rw [hexp] at h
          simp only [Bool.false_eq_true, not_false_iff, if_true, Option.some.injEq] at h
          refine ⟨cache_key q m, e, hl, by rw [← h], ?_⟩
          simp only [is_expired, httl, decide_eq_false_iff_not] at hexp
          exact hexp
  · intro θ sz ttl vec cosSim q m r tk t₀ t₁ hgt
    by_cases hg : isBlankStr q = true ∨ r = ""
    · have hset : SemanticCache.set ⟨θ, sz, ttl, [], [], vec, cosSim⟩ q m r tk t₀ =
          ⟨θ, sz, ttl, [], [], vec, cosSim⟩ := by
        unfold SemanticCache.set
        rw [if_pos hg]
      rw [hset]
      refine get_none_of_clean_empty _ q m t₁ rfl rfl
    · have hb : isBlankStr q = false := by
        cases hx : isBlankStr q with
        | true => exact absurd (Or.inl hx) hg
        | false => rfl
      have hr : r ≠ "" := fun hh => hg (Or.inr hh)
      rw [set_empty_shape θ sz ttl vec cosSim q m r tk t₀ hb hr]
      cases hv : vec q with
      | none =>
        simp only [hv]
        have hexp : is_expired
            ⟨θ, sz, ttl, [(cache_key q m, ⟨q, m, r, tk, t₀⟩)], [], vec, cosSim⟩
            ⟨q, m, r, tk, t₀⟩ t₁ = true := by
          simp only [is_expired, decide_eq_true_eq]
          omega
        refine get_none_of_clean_empty _ q m t₁ ?_ ?_ <;>
          simp [cleanup_expired, hexp, remove_entry, lookupKey, eraseKey]
      | some v =>
        simp only [hv]
        have hexp : is_expired
            ⟨θ, sz, ttl, [(cache_key q m, ⟨q, m, r, tk, t₀⟩)], [(q, v)], vec, cosSim⟩
            ⟨q, m, r, tk, t₀⟩ t₁ = true := by
          simp only [is_expired, decide_eq_true_eq]
          omega
        refine get_none_of_clean_empty _ q m t₁ ?_ ?_ <;>
          simp [cleanup_expired, hexp, remove_entry, lookupKey, eraseKey]

/-- A one-entry cache used to witness the TTL claims. -/
def witnessCache : SemanticCache :=
  ⟨mkRat 85 100, 1000, 3600, [("hi:m", ⟨"hi", "m", "resp", 5, 0⟩)], [("hi", [1])],
    fun _ => some [1], fun _ _ => 1⟩

/-- Witness for claim C4: a fresh hit comes from an unexpired entry, and the
expired insert-then-query round trip misses. -/
theorem claim_C4_witness :
    (∃ k e, lookupKey k (cleanup_expired witnessCache 10).cache = some e ∧
      ("resp" : String) = e.response ∧
      ¬ ((10 : Int) - e.createdAt > witnessCache.ttlSeconds)) ∧
    SemanticCache.get
      (SemanticCache.set ⟨mkRat 85 100, 1000, 3600, [], [], fun _ => some [1], fun _ _ => 1⟩
        "hi" "m" "resp" 5 0) "hi" "m" 4000 = none :=
  ⟨claim_C4_ttl_expiry.1 witnessCache "hi" "m" 10 ⟨"resp", true, 1⟩ (by decide),
   claim_C4_ttl_expiry.2 (mkRat 85 100) 1000 3600 (fun _ => some [1]) (fun _ _ => 1)
     "hi" "m" "resp" 5 0 4000 (by decide)⟩

theorem evict_oldest_cache_nodup (c : SemanticCache)
    (hnd : (keysOf c.cache).Nodup) : (keysOf (evict_oldest c).cache).Nodup := by
  unfold evict_oldest
  cases hx : c.cache with
  | nil => simpa [hx] using hnd
  | cons x rest => exact remove_entry_cache_nodup c _ hnd

/-- After a non-rejected `set`, the cache is the new entry inserted over a
base (the original entries, minus the evicted one when at capacity) whose
keys stay duplicate-free; the TTL configuration is untouched. -/
theorem set_shape (c : SemanticCache) (q m r : String) (tk : Nat) (t₀ : Int)
    (hq : isBlankStr q = false) (hr : r ≠ "") :
    ∃ base : List (String × CacheEntry),
      (SemanticCache.set c q m r tk t₀).cache =
        insertKey (cache_key q m) ⟨q, m, r, tk, t₀⟩ base ∧
      ((keysOf c.cache).Nodup → (keysOf base).Nodup) ∧
      (SemanticCache.set c q m r tk t₀).ttlSeconds = c.ttlSeconds := by
  unfold SemanticCache.set
  rw [if_neg (by simp [hq, hr])]
  by_cases hcap : c.cache.length ≥ c.maxCacheSize
  · rw [if_pos hcap]
    refine ⟨(evict_oldest c).cache, ?_, fun hnd => evict_oldest_cache_nodup c hnd, ?_⟩
    · cases hv : vectorize_query (evict_oldest c) q <;> simp [hv]
    · cases hv : vectorize_query (evict_oldest c) q <;>
        simp [hv, evict_oldest_ttlSeconds]
  · rw [if_neg hcap]
    refine ⟨c.cache, ?_, fun hnd => hnd, ?_⟩
    · cases hv : vectorize_query c q <;> simp [hv]
    · cases hv : vectorize_query c q <;> simp [hv]

/-- Claim C5: for a non-blank query, non-empty response and a cache whose
keys are duplicate-free, `set` followed by `get` for the same query and
model within the TTL returns the stored response through the exact-key
path, with similarity `1.0`. -/
theorem claim_C5_exact_roundtrip (c : SemanticCache) (q m r : String) (tk : Nat)
    (t₀ t₁ : Int) (hnd : (keysOf c.cache).Nodup) (hq : isBlankStr q = false)
    (hr : r ≠ "") (hle : t₁ - t₀ ≤ c.ttlSeconds) :
    SemanticCache.get (SemanticCache.set c q m r tk t₀) q m t₁ =
      some ⟨r, true, 1⟩ := by
  obtain ⟨base, hcache, hbnd, httl⟩ := set_shape c q m r tk t₀ hq hr
  set c₁ := SemanticCache.set c q m r tk t₀ with hc₁
  have hnd₁ : (keysOf c₁.cache).Nodup := by
    rw [hcache]
    exact keysOf_insertKey_nodup (hbnd hnd)
  have hlk : lookupKey (cache_key q m) c₁.cache = some ⟨q, m, r, tk, t₀⟩ := by
    rw [hcache]
    exact lookupKey_insertKey_self _ _ _
  have hnotmem : cache_key q m ∉
      (c₁.cache.filter (fun p => is_expired c₁ p.2 t₁)).map Prod.fst := by
    intro hk
    obtain ⟨p, hpmem, hpfst⟩ := List.mem_map.mp hk
    obtain ⟨pk, pe⟩ := p
    obtain ⟨hpc, hpexp⟩ := List.mem_filter.mp hpmem
    have hpk : pk = cache_key q m := hpfst
    subst hpk
    have hpe : lookupKey (cache_key q m) c₁.cache = some pe :=
      lookupKey_of_mem_nodup hnd₁ hpc
    rw [hlk] at hpe
    injection hpe with hpe
    rw [← hpe] at hpexp
    simp only [is_expired, httl, decide_eq_true_eq] at hpexp
    omega
  have hcleanlk : lookupKey (cache_key q m) (cleanup_expired c₁ t₁).cache =
      some ⟨q, m, r, tk, t₀⟩ := by
    unfold cleanup_expired
    rw [foldl_remove_entry_lookup _ c₁ _ hnotmem, hlk]
  have hex : is_expired (cleanup_expired c₁ t₁) ⟨q, m, r, tk, t₀⟩ t₁ = false := by
    simp only [is_expired, cleanup_expired_ttlSeconds, httl, decide_eq_false_iff_not]
    omega
  unfold SemanticCache.get
  simp only [hq, Bool.false_eq_true, if_false, hcleanlk, hex, not_false_iff, if_true]

/-- Witness for claim C5: an exact round trip through an initially empty
cache. -/
theorem claim_C5_witness :
    SemanticCache.get
      (SemanticCache.set ⟨mkRat 85 100, 1000, 3600, [], [], fun _ => some [1], fun _ _ => 1⟩
        "hi there" "m" "resp" 5 0) "hi there" "m" 10 = some ⟨"resp", true, 1⟩ :=
  claim_C5_exact_roundtrip
    ⟨mkRat 85 100, 1000, 3600, [], [], fun _ => some [1], fun _ _ => 1⟩
    "hi there" "m" "resp" 5 0 10 (by simp [keysOf]) (by decide) (by decide) (by decide)

/-- Python's `min` over the cache keys ordered by `created_at`: the chosen
key belongs to the scanned entries and its entry has minimal `created_at`
(the first minimum encountered wins). -/
theorem oldestKeyAux_spec :
    ∀ (l : List (String × CacheEntry)) (best : String × CacheEntry),
      ∃ p : String × CacheEntry,
        oldestKeyAux best l = p.1 ∧ (p = best ∨ p ∈ l) ∧
        p.2.createdAt ≤ best.2.createdAt ∧
        ∀ x ∈ l, p.2.createdAt ≤ x.2.createdAt := by
  intro l
  induction l with
  | nil =>
    intro best
    exact ⟨best, rfl, Or.inl rfl, le_refl _, by simp⟩
  | cons x rest ih =>
    intro best
    by_cases hlt : x.2.createdAt < best.2.createdAt
    · obtain ⟨p, h1, h2, h3, h4⟩ := ih x
      refine ⟨p, ?_, ?_, le_trans h3 (le_of_lt hlt), ?_⟩
      · rw [oldestKeyAux, if_pos hlt]
        exact h1
      · rcases h2 with h | h
        · exact Or.inr (h ▸ List.mem_cons_self _ _)
        · exact Or.inr (List.mem_cons_of_mem _ h)
      · intro y hy
        rcases List.mem_cons.mp hy with h | h
        · rw [h]
          exact h3
        · exact h4 y h
    · obtain ⟨p, h1, h2, h3, h4⟩ := ih best
      refine ⟨p, ?_, ?_, h3, ?_⟩
      · rw [oldestKeyAux, if_neg hlt]
        exact h1
      · rcases h2 with h | h
        · exact Or.inl h
        · exact Or.inr (List.mem_cons_of_mem _ h)
      · intro y hy
        rcases List.mem_cons.mp hy with h | h
        · rw [h]
          exact le_trans h3 (not_lt.mp hlt)
        · exact h4 y h


/-- Claim C7: inserting a fresh entry into a cache holding exactly
`maxCacheSize` entries evicts exactly one existing entry — one with the
smallest `createdAt` — and then stores the new entry and its vector; the
size is back at `maxCacheSize` afterwards. -/
theorem claim_C7_capacity_eviction (c : SemanticCache) (q m r : String) (tk : Nat)
    (t₀ : Int) (v : List ℚ)
    (hnd : (keysOf c.cache).Nodup)
    (hlen : c.cache.length = c.maxCacheSize)
    (hpos : 0 < c.maxCacheSize)
    (hq : isBlankStr q = false) (hr : r ≠ "")
    (hnew : lookupKey (cache_key q m) c.cache = none)
    (hv : c.vectorize q = some v) :
    (SemanticCache.set c q m r tk t₀).cache.length = c.maxCacheSize ∧
    (∃ ek ee, (ek, ee) ∈ c.cache ∧
      lookupKey ek (SemanticCache.set c q m r tk t₀).cache = none ∧
      ∀ p ∈ c.cache, ee.createdAt ≤ p.2.createdAt) ∧
    lookupKey (cache_key q m) (SemanticCache.set c q m r tk t₀).cache =
      some ⟨q, m, r, tk, t₀⟩ ∧
    lookupKey q (SemanticCache.set c q m r tk t₀).queryVectors = some v ∧
    (∃ ek ee, (ek, ee) ∈ c.cache ∧
      ∀ kp ep, (kp, ep) ∈ c.cache → kp ≠ ek →
        lookupKey kp (SemanticCache.set c q m r tk t₀).cache = some ep) := by
  have hxe : ∃ x rest, c.cache = x :: rest := by
    cases hcc : c.cache with
    | nil =>
      rw [hcc] at hlen
      simp at hlen
      omega
    | cons a b => exact ⟨a, b, rfl⟩
  obtain ⟨x, rest, hx⟩ := hxe
  obtain ⟨p, hp1, hp2, hp3, hp4⟩ := oldestKeyAux_spec rest x
  obtain ⟨ek, ee⟩ := p
  have hp1' : oldestKeyAux x rest = ek := hp1
  have hmem : (ek, ee) ∈ c.cache := by
    rw [hx]
    rcases hp2 with h | h
    · exact h ▸ List.mem_cons_self _ _
    · exact List.mem_cons_of_mem _ h
  have hekkeys : ek ∈ keysOf c.cache := List.mem_map_of_mem Prod.fst hmem
  have hknot : cache_key q m ∉ keysOf c.cache :=
    (lookupKey_eq_none_iff _ _).mp hnew
  have hne : ek ≠ cache_key q m := fun heq => hknot (heq ▸ hekkeys)
  have hlkev : lookupKey ek c.cache = some ee := lookupKey_of_mem_nodup hnd hmem
  have hmin : ∀ p ∈ c.cache, ee.createdAt ≤ p.2.createdAt := by
    intro y hy
    rw [hx] at hy
    rcases List.mem_cons.mp hy with h | h
    · rw [h]
      exact hp3
    · exact hp4 y h
  have hcap : c.cache.length ≥ c.maxCacheSize := le_of_eq hlen.symm
  have hset : SemanticCache.set c q m r tk t₀ =
      ⟨c.similarityThreshold, c.maxCacheSize, c.ttlSeconds,
        insertKey (cache_key q m) ⟨q, m, r, tk, t₀⟩ (eraseKey ek c.cache),
        insertKey q v (eraseKey ee.query c.queryVectors),
        c.vectorize, c.cosineSimilarity⟩ := by
    unfold SemanticCache.set
    rw [if_neg (by simp [hq, hr])]
    rw [if_pos hcap]
    have hev : evict_oldest c =
        ⟨c.similarityThreshold, c.maxCacheSize, c.ttlSeconds,
          eraseKey ek c.cache, eraseKey ee.query c.queryVectors,
          c.vectorize, c.cosineSimilarity⟩ := by
      unfold evict_oldest
      simp only [hx]
      rw [hp1']
      unfold remove_entry
      rw [hlkev, hx]
    rw [hev]
    simp only [vectorize_query, hq, Bool.false_eq_true, if_false, hv]
  rw [hset]
  have heknot : lookupKey ek (eraseKey ek c.cache) = none :=
    lookupKey_eraseKey_self_nodup hnd
  have hknot' : cache_key q m ∉ keysOf (eraseKey ek c.cache) := fun hmm =>
    hknot ((keysOf_eraseKey_sublist ek c.cache).mem hmm)
  refine ⟨?_, ⟨ek, ee, hmem, ?_, hmin⟩, ?_, ?_, ⟨ek, ee, hmem, ?_⟩⟩
  · have h1 := @length_insertKey_of_not_mem CacheEntry (cache_key q m)
      ⟨q, m, r, tk, t₀⟩ (eraseKey ek c.cache) hknot'
    have h2 := @length_eraseKey_of_mem CacheEntry ek c.cache hekkeys
    simp only [h1]
    omega
  · rw [lookupKey_insertKey_ne ek (cache_key q m) _ _ hne]
    exact heknot
  · exact lookupKey_insertKey_self _ _ _
  · exact lookupKey_insertKey_self _ _ _
  · intro kp ep hp hpne
    have hkpne : kp ≠ cache_key q m := fun heq =>
      hknot (heq ▸ List.mem_map_of_mem Prod.fst hp)
    rw [lookupKey_insertKey_ne kp (cache_key q m) _ _ hkpne,
        lookupKey_eraseKey_ne kp ek _ hpne]
    exact lookupKey_of_mem_nodup hnd hp

/-- A two-entry cache at capacity 2; the second entry is the older one. -/
def fullCache : SemanticCache :=
  ⟨mkRat 85 100, 2, 3600,
    [("qa:m", ⟨"qa", "m", "ra", 1, 5⟩), ("qb:m", ⟨"qb", "m", "rb", 1, 3⟩)],
    [("qa", [1]), ("qb", [1])],
    fun _ => some [1], fun _ _ => 1⟩

/-- Witness for claim C7 at `fullCache`. -/
theorem claim_C7_witness :
    (SemanticCache.set fullCache "qn" "m" "rn" 1 9).cache.length = fullCache.maxCacheSize ∧
    (∃ ek ee, (ek, ee) ∈ fullCache.cache ∧
      lookupKey ek (SemanticCache.set fullCache "qn" "m" "rn" 1 9).cache = none ∧
      ∀ p ∈ fullCache.cache, ee.createdAt ≤ p.2.createdAt) ∧
    lookupKey (cache_key "qn" "m") (SemanticCache.set fullCache "qn" "m" "rn" 1 9).cache =
      some ⟨"qn", "m", "rn", 1, 9⟩ ∧
    lookupKey "qn" (SemanticCache.set fullCache "qn" "m" "rn" 1 9).queryVectors =
      some [1] ∧
    (∃ ek ee, (ek, ee) ∈ fullCache.cache ∧
      ∀ kp ep, (kp, ep) ∈ fullCache.cache → kp ≠ ek →
        lookupKey kp (SemanticCache.set fullCache "qn" "m" "rn" 1 9).cache = some ep) :=
  claim_C7_capacity_eviction fullCache "qn" "m" "rn" 1 9 [1]
    (by decide) (by decide) (by decide) (by decide) (by decide) (by decide) rfl

/-- The invariant of the scan in `_find_similar_query`: a returned key is a
same-model entry with an available vector whose similarity beats the
threshold and the running best; every candidate scanned before it was
either below the threshold or strictly below its similarity (so on ties
the earliest-scanned entry is kept), and every candidate after it is below
the threshold or not strictly better. -/
theorem findBestLoop_spec (c : SemanticCache) (qv : List ℚ) (m : String) :
    ∀ (l : List (String × CacheEntry)) (bSim : ℚ) (best : Option String) (k : String),
      findBestLoop c qv m l bSim best = some k →
      (best = some k ∧ ∀ kp ep, (kp, ep) ∈ l → ep.model = m →
        ∀ cv, lookupKey ep.query c.queryVectors = some cv →
          ¬ (c.cosineSimilarity qv cv > bSim ∧
             c.cosineSimilarity qv cv ≥ c.similarityThreshold)) ∨
      (∃ l₁ e l₂, l = l₁ ++ (k, e) :: l₂ ∧ e.model = m ∧
        ∃ cv, lookupKey e.query c.queryVectors = some cv ∧
          c.cosineSimilarity qv cv > bSim ∧
          c.cosineSimilarity qv cv ≥ c.similarityThreshold ∧
          (∀ kp ep, (kp, ep) ∈ l₁ → ep.model = m →
            ∀ cv', lookupKey ep.query c.queryVectors = some cv' →
              c.cosineSimilarity qv cv' < c.cosineSimilarity qv cv ∨
              c.cosineSimilarity qv cv' < c.similarityThreshold) ∧
          (∀ kp ep, (kp, ep) ∈ l₂ → ep.model = m →
            ∀ cv', lookupKey ep.query c.queryVectors = some cv' →
              c.cosineSimilarity qv cv' ≤ c.cosineSimilarity qv cv ∨
              c.cosineSimilarity qv cv' < c.similarityThreshold)) := by
  intro l
  induction l with
  | nil =>
    intro bSim best k hk
    exact Or.inl ⟨hk, by simp⟩
  | cons hd rest ih =>
    obtain ⟨kh, eh⟩ := hd
    intro bSim best k hk
    rw [findBestLoop] at hk
    by_cases hm : eh.model = m
    · rw [if_pos hm] at hk
      cases hcv : lookupKey eh.query c.queryVectors with
      | none =>
        simp only [hcv] at hk
        rcases ih bSim best k hk with ⟨hb, hall⟩ | ⟨l₁, e, l₂, hsplit, hme, cv2, hcv2, hgt2, hge2, hpre, hpost⟩
        · left
          refine ⟨hb, ?_⟩
          intro kp ep hp hpm cv hcv'
          rcases List.mem_cons.mp hp with h | h
          · injection h with h1 h2
            subst h1
            subst h2
            rw [hcv] at hcv'
            exact absurd hcv' (by simp)
          · exact hall kp ep h hpm cv hcv'
        · right
          refine ⟨(kh, eh) :: l₁, e, l₂, by rw [hsplit]; exact (List.cons_append _ _ _).symm, hme, cv2, hcv2, hgt2, hge2, ?_, hpost⟩
          intro kp ep hp hpm cv' hcv'
          rcases List.mem_cons.mp hp with h | h
          · injection h with h1 h2
            subst h1
            subst h2
            rw [hcv] at hcv'
            exact absurd hcv' (by simp)
          · exact hpre kp ep h hpm cv' hcv'
      | some cv =>
        simp only [hcv] at hk
        by_cases hcond : c.cosineSimilarity qv cv > bSim ∧
            c.cosineSimilarity qv cv ≥ c.similarityThreshold
        · rw [if_pos hcond] at hk
          rcases ih _ _ k hk with ⟨hb, hall⟩ | ⟨l₁, e, l₂, hsplit, hme, cv2, hcv2, hgt2, hge2, hpre, hpost⟩
          · injection hb with hb
            subst hb
            right
            refine ⟨[], eh, rest, rfl, hm, cv, hcv, hcond.1, hcond.2, by simp, ?_⟩
            intro kp ep hp hpm cv' hcv'
            have := hall kp ep hp hpm cv' hcv'
            rcases not_and_or.mp this with h | h
            · exact Or.inl (not_lt.mp h)
            · exact Or.inr (not_le.mp h)
          · right
            refine ⟨(kh, eh) :: l₁, e, l₂, by rw [hsplit]; exact (List.cons_append _ _ _).symm, hme, cv2, hcv2,
              lt_trans hcond.1 hgt2, hge2, ?_, hpost⟩
            intro kp ep hp hpm cv' hcv'
            rcases List.mem_cons.mp hp with h | h
            · injection h with h1 h2
              subst h1
              subst h2
              rw [hcv] at hcv'
              injection hcv' with hcv'
              subst hcv'
              exact Or.inl hgt2
            · exact hpre kp ep h hpm cv' hcv'
        · rw [if_neg hcond] at hk
          rcases ih bSim best k hk with ⟨hb, hall⟩ | ⟨l₁, e, l₂, hsplit, hme, cv2, hcv2, hgt2, hge2, hpre, hpost⟩
          · left
            refine ⟨hb, ?_⟩
            intro kp ep hp hpm cv' hcv'
            rcases List.mem_cons.mp hp with h | h
            · injection h with h1 h2
              subst h1
              subst h2
              rw [hcv] at hcv'
              injection hcv' with hcv'
              subst hcv'
              exact hcond
            · exact hall kp ep h hpm cv' hcv'
          · right
            refine ⟨(kh, eh) :: l₁, e, l₂, by rw [hsplit]; exact (List.cons_append _ _ _).symm, hme, cv2, hcv2, hgt2, hge2, ?_, hpost⟩
            intro kp ep hp hpm cv' hcv'
            rcases List.mem_cons.mp hp with h | h
            · injection h with h1 h2
              subst h1
              subst h2
              rw [hcv] at hcv'
              injection hcv' with hcv'
              subst hcv'
              rcases not_and_or.mp hcond with h' | h'
              · exact Or.inl (lt_of_le_of_lt (not_lt.mp h') hgt2)
              · exact Or.inr (not_le.mp h')
            · exact hpre kp ep h hpm cv' hcv'
    · rw [if_neg hm] at hk
      rcases ih bSim best k hk with ⟨hb, hall⟩ | ⟨l₁, e, l₂, hsplit, hme, cv2, hcv2, hgt2, hge2, hpre, hpost⟩
      · left
        refine ⟨hb, ?_⟩
        intro kp ep hp hpm cv' hcv'
        rcases List.mem_cons.mp hp with h | h
        · injection h with h1 h2
          subst h1
          subst h2
          exact absurd hpm hm
        · exact hall kp ep h hpm cv' hcv'
      · right
        refine ⟨(kh, eh) :: l₁, e, l₂, by rw [hsplit]; exact (List.cons_append _ _ _).symm, hme, cv2, hcv2, hgt2, hge2, ?_, hpost⟩
        intro kp ep hp hpm cv' hcv'
        rcases List.mem_cons.mp hp with h | h
        · injection h with h1 h2
          subst h1
          subst h2
          exact absurd hpm hm
        · exact hpre kp ep h hpm cv' hcv'

/-- Claim C6 (amended): a similarity-scan hit is always a same-model entry
(a different model never matches, even for identical text) whose cosine
similarity reaches `similarityThreshold` (and is strictly positive); its
similarity is maximal among the same-model candidates, every candidate
scanned before it is strictly worse (so equal similarities keep the
earliest-scanned entry — not the most recent), and no later candidate is
strictly better. -/
theorem claim_C6_similarity_scan (c : SemanticCache) (q m k : String)
    (hfind : find_similar_query c q m = some k) :
    ∃ qv, vectorize_query c q = some qv ∧
    ∃ l₁ e l₂, c.cache = l₁ ++ (k, e) :: l₂ ∧ e.model = m ∧
    ∃ cv, lookupKey e.query c.queryVectors = some cv ∧
      c.cosineSimilarity qv cv ≥ c.similarityThreshold ∧
      c.cosineSimilarity qv cv > 0 ∧
      (∀ kp ep, (kp, ep) ∈ l₁ → ep.model = m →
        ∀ cv', lookupKey ep.query c.queryVectors = some cv' →
          c.cosineSimilarity qv cv' < c.cosineSimilarity qv cv ∨
          c.cosineSimilarity qv cv' < c.similarityThreshold) ∧
      (∀ kp ep, (kp, ep) ∈ l₂ → ep.model = m →
        ∀ cv', lookupKey ep.query c.queryVectors = some cv' →
          c.cosineSimilarity qv cv' ≤ c.cosineSimilarity qv cv ∨
          c.cosineSimilarity qv cv' < c.similarityThreshold) := by
  unfold find_similar_query at hfind
  by_cases hemp : c.queryVectors.isEmpty
  · rw [if_pos hemp] at hfind
    exact absurd hfind (by simp)
  · rw [if_neg hemp] at hfind
    cases hv : vectorize_query c q with
    | none =>
      rw [hv] at hfind
      exact absurd hfind (by simp)
    | some qv =>
      rw [hv] at hfind
      rcases findBestLoop_spec c qv m c.cache 0 none k hfind with ⟨hb, _⟩ |
        ⟨l₁, e, l₂, hsplit, hme, cv, hcv, hgt, hge, hpre, hpost⟩
      · exact absurd hb (by simp)
      · exact ⟨qv, rfl, l₁, e, l₂, hsplit, hme, cv, hcv, hge, hgt, hpre, hpost⟩

/-- Two same-model entries whose vectors tie at similarity 0.9; the entry
under key `q2:m` is the more recent (larger `createdAt`). -/
def tieCache : SemanticCache :=
  ⟨mkRat 85 100, 1000, 3600,
    [("q1:m", ⟨"q1", "m", "r1", 1, 0⟩), ("q2:m", ⟨"q2", "m", "r2", 1, 10⟩)],
    [("q1", [1]), ("q2", [1])],
    fun _ => some [1], fun _ _ => mkRat 9 10⟩

/-- Counterexample for claim C6: both entries of `tieCache` are same-model
candidates with identical similarity 0.9 ≥ 0.85, the entry `q2:m` is the
more recent, yet the scan returns `q1:m` — the earliest-scanned entry, not
the most recent, refuting the claimed most-recent tie-break. -/
theorem claim_C6_counterexample :
    find_similar_query tieCache "qq" "m" = some "q1:m" ∧
    ("q1:m" : String) ≠ "q2:m" ∧
    lookupKey "q1:m" tieCache.cache = some ⟨"q1", "m", "r1", 1, 0⟩ ∧
    lookupKey "q2:m" tieCache.cache = some ⟨"q2", "m", "r2", 1, 10⟩ ∧
    tieCache.cosineSimilarity [1] [1] = mkRat 9 10 ∧
    mkRat 9 10 ≥ tieCache.similarityThreshold ∧
    ((0 : Int) < 10) :=
  ⟨by decide, by decide, by decide, by decide, by decide, by decide, by decide⟩

/-- Witness for claim C6 (amended) at `tieCache`. -/
theorem claim_C6_witness :
    ∃ qv, vectorize_query tieCache "qq" = some qv ∧
    ∃ l₁ e l₂, tieCache.cache = l₁ ++ ("q1:m", e) :: l₂ ∧ e.model = "m" ∧
    ∃ cv, lookupKey e.query tieCache.queryVectors = some cv ∧
      tieCache.cosineSimilarity qv cv ≥ tieCache.similarityThreshold ∧
      tieCache.cosineSimilarity qv cv > 0 ∧
      (∀ kp ep, (kp, ep) ∈ l₁ → ep.model = "m" →
        ∀ cv', lookupKey ep.query tieCache.queryVectors = some cv' →
          tieCache.cosineSimilarity qv cv' < tieCache.cosineSimilarity qv cv ∨
          tieCache.cosineSimilarity qv cv' < tieCache.similarityThreshold) ∧
      (∀ kp ep, (kp, ep) ∈ l₂ → ep.model = "m" →
        ∀ cv', lookupKey ep.query tieCache.queryVectors = some cv' →
          tieCache.cosineSimilarity qv cv' ≤ tieCache.cosineSimilarity qv cv ∨
          tieCache.cosineSimilarity qv cv' < tieCache.similarityThreshold) :=
  claim_C6_similarity_scan tieCache "qq" "m" "q1:m" (by decide)
